import Mathlib

/-
Verification of the html5streams streaming pipeline (src/src/lib.rs and
src/src/traverser.rs) against its natural-language specification.

Shallow embedding conventions:
* Rust `u32` handles are modelled as `Nat` (the counter only ever grows by
  one per created node, so overflow is irrelevant to the verified claims).
* `QualName` is modelled as a plain `String`; an attribute list as
  `List (String × String)`.  The claims under study never inspect name
  internals.
* The `HashMap<u32, Node>` of pending nodes is modelled as an association
  list with the HashMap operations (insert replaces, remove deletes).
* Panics (`unwrap`, `assert!`, `panic!`, `todo!`) are modelled by returning
  `none` from an `Option`-valued function.
* The generic inner `HtmlSink` of every pipeline stage is instantiated with
  a recording sink: its state is the list of events it has received, its
  `reset`/`finish` output is that list.  All claims under study are about
  which events a stage forwards to its inner sink, which the recording sink
  captures exactly.
-/

namespace Streams

/-- Mirrors `HtmlPathElement` (src/src/lib.rs): a frame of an ancestor
path — handle, qualified name and attributes. -/
structure HtmlPathElement where
  handle : Nat
  name : String
  attrs : List (String × String)
deriving DecidableEq, Repr

/-- Mirrors `HtmlContext`: an ancestor path from the root (exclusive)
down to the parent of the reported node. -/
abbrev Context := List HtmlPathElement

/-- One call into an `HtmlSink` (the stream protocol of src/src/lib.rs). -/
inductive SinkEvent where
  | doctype (name publicId systemId : String)
  | element (context : Context) (elt : HtmlPathElement)
  | text (context : Context) (s : String)
  | comment (context : Context) (s : String)
deriving DecidableEq, Repr

/-- Mirrors `Node` (src/src/traverser.rs): a pending node in the pool. -/
inductive Node where
  | element (e : HtmlPathElement)
  | comment (text : String)
deriving DecidableEq, Repr

/-- Mirrors `NodeOrText` (html5ever), the child argument of `append`. -/
inductive NodeOrText where
  | appendNode (handle : Nat)
  | appendText (text : String)
deriving DecidableEq, Repr

/-- Mirrors `ParseTraverser` (src/src/traverser.rs).  The inner sink is a
recording sink, so it does not appear in the state; emitted events are
returned by each operation instead. -/
structure ParseTraverser where
  parseError : Option String
  handle : Nat
  traversal : List HtmlPathElement
  freeNodes : List (Nat × Node)
deriving DecidableEq, Repr

/-- `HashMap::get`/`remove` value lookup on the association-list model. -/
def lookupFree (h : Nat) (l : List (Nat × Node)) : Option Node :=
  (l.find? fun kv => kv.1 == h).map fun kv => kv.2

/-- Key deletion on the association-list model of the node pool. -/
def removeFree (h : Nat) (l : List (Nat × Node)) : List (Nat × Node) :=
  l.filter fun kv => kv.1 != h

/-- Mirrors `ParseTraverser::new_document`. -/
def ParseTraverser.new_document : ParseTraverser :=
  { parseError := none, handle := 0, traversal := [], freeNodes := [] }

/-- Mirrors `ParseTraverser::new_fragment`: starts with handle 1 and a
synthetic `body` frame already on the traversal stack. -/
def ParseTraverser.new_fragment : ParseTraverser :=
  { parseError := none, handle := 1,
    traversal := [⟨1, "body", []⟩], freeNodes := [] }

/-- The unwinding loop inside `ParseTraverser::append`:
`loop { if self.traversal.last().map_or(0, |t| t.handle) == *parent { break } else { self.traversal.pop(); } }`.
The fuel argument bounds the number of pops; `append` passes the stack
length, which the loop can never exceed (each iteration pops one frame).
With fuel exhausted the stack is empty and the result matches the loop for
`parent = 0`; for other parents that situation is unreachable because
`append` guards the loop with a membership test. -/
def popToParentGo (parent : Nat) : Nat → List HtmlPathElement → List HtmlPathElement
  | 0, fs => fs
  | fuel + 1, fs =>
    if ((fs.getLast?.map HtmlPathElement.handle).getD 0) == parent then fs
    else popToParentGo parent fuel fs.dropLast

/-- Pop the traversal stack until its top frame is the parent (or it is
empty, for the document root). -/
def popToParent (parent : Nat) (fs : List HtmlPathElement) : List HtmlPathElement :=
  popToParentGo parent fs.length fs

/-- Mirrors `TreeSink::create_element` for `ParseTraverser`: allocates the
next handle and stores the element as pending. -/
def ParseTraverser.create_element (s : ParseTraverser) (name : String)
    (attrs : List (String × String)) : ParseTraverser × Nat :=
  let h := s.handle + 1
  ({ s with handle := h,
            freeNodes := (h, Node.element ⟨h, name, attrs⟩) :: removeFree h s.freeNodes }, h)

/-- Mirrors `TreeSink::create_comment` for `ParseTraverser`. -/
def ParseTraverser.create_comment (s : ParseTraverser) (text : String) :
    ParseTraverser × Nat :=
  let h := s.handle + 1
  ({ s with handle := h, freeNodes := (h, Node.comment text) :: removeFree h s.freeNodes }, h)

/-- Mirrors `TreeSink::parse_error` for `ParseTraverser`:
`self.parse_error = Some(msg)` — an unconditional overwrite. -/
def ParseTraverser.parse_error (s : ParseTraverser) (msg : String) : ParseTraverser :=
  { s with parseError := some msg }

/-- Mirrors `TreeSink::append` for `ParseTraverser` (src/src/traverser.rs
lines 185–235).  Returns `none` exactly where the Rust code panics
(`unwrap` on a missing pool entry, `assert_eq!` on a handle mismatch);
otherwise returns the new state and the events emitted into the inner
sink. -/
def ParseTraverser.append (s : ParseTraverser) (parent : Nat) (child : NodeOrText) :
    Option (ParseTraverser × List SinkEvent) :=
  if parent == 0 || s.traversal.any fun node => node.handle == parent then
    if s.parseError.isNone then
      match child with
      | NodeOrText.appendNode h =>
        match lookupFree h s.freeNodes with
        | none => none
        | some (Node.element e) =>
          if e.handle == h then
            some ({ s with traversal := popToParent parent s.traversal ++ [e],
                           freeNodes := removeFree h s.freeNodes },
              [SinkEvent.element (popToParent parent s.traversal) e])
          else none
        | some (Node.comment text) =>
          some ({ s with traversal := popToParent parent s.traversal,
                         freeNodes := removeFree h s.freeNodes },
            [SinkEvent.comment (popToParent parent s.traversal) text])
      | NodeOrText.appendText text =>
        some ({ s with traversal := popToParent parent s.traversal },
          [SinkEvent.text (popToParent parent s.traversal) text])
    else
      some ({ s with traversal := popToParent parent s.traversal }, [])
  else
    some (s, [])

/-- Mirrors `TreeSink::append_doctype_to_document` for `ParseTraverser`:
forwarded unconditionally to the inner sink. -/
def ParseTraverser.append_doctype_to_document (s : ParseTraverser)
    (name publicId systemId : String) : ParseTraverser × List SinkEvent :=
  (s, [SinkEvent.doctype name publicId systemId])

/-- Mirrors `TreeSink::finish` for `ParseTraverser`: with the recording
inner sink, `self.inner.finish()` is the list of all events the traverser
has emitted, passed here as `inner`. -/
def ParseTraverser.finish (s : ParseTraverser) (inner : List SinkEvent) :
    Except String (List SinkEvent) :=
  match s.parseError with
  | some err => Except.error err
  | none => Except.ok inner

/-- One call of the external tree-construction engine into the adapter. -/
inductive EngineCall where
  | createElement (name : String) (attrs : List (String × String))
  | createComment (text : String)
  | appendCall (parent : Nat) (child : NodeOrText)
  | parseErrorCall (msg : String)
  | doctype (name publicId systemId : String)
deriving DecidableEq, Repr

/-- Effect of one engine call on the adapter state, together with the
events it emits into the inner sink (`none` = panic). -/
def step (s : ParseTraverser) : EngineCall → Option (ParseTraverser × List SinkEvent)
  | EngineCall.createElement n a => some ((s.create_element n a).1, [])
  | EngineCall.createComment t => some ((s.create_comment t).1, [])
  | EngineCall.appendCall p c => s.append p c
  | EngineCall.parseErrorCall m => some (s.parse_error m, [])
  | EngineCall.doctype n pubId sysId => some (s, [SinkEvent.doctype n pubId sysId])

/-- Run a sequence of engine calls, accumulating all emitted events. -/
def run (s : ParseTraverser) : List EngineCall → Option (ParseTraverser × List SinkEvent)
  | [] => some (s, [])
  | c :: cs =>
    match step s c with
    | none => none
    | some (s1, evs1) =>
      match run s1 cs with
      | none => none
      | some (s2, evs2) => some (s2, evs1 ++ evs2)

/-! ### Serializer (terminal sink), src/src/lib.rs lines 85–172 -/

/-- One unit of serializer output (a call into the underlying
`html5ever::serialize::HtmlSerializer`). -/
inductive SerOut where
  | startElem (name : String) (attrs : List (String × String))
  | endElem (name : String)
  | text (s : String)
  | comment (s : String)
  | doctype (name : String)
deriving DecidableEq, Repr

/-- Mirrors `OpenElement` (src/src/lib.rs): a frame of the serializer's
local open-tag stack. -/
structure OpenElement where
  handle : Nat
  name : String
deriving DecidableEq, Repr

/-- Mirrors `HtmlSerializer` (src/src/lib.rs): accumulated output plus the
local open-tag stack. -/
structure HtmlSerializer where
  out : List SerOut
  open_element_path : List OpenElement
deriving DecidableEq, Repr

/-- The while loop inside `HtmlSerializer::pop_to_path`:
`while context.len() < self.open_element_path.len() { pop; end_elem }`.
Fuel bounds the number of iterations; `pop_to_path` passes the stack
length, which suffices since each iteration pops one frame. -/
def HtmlSerializer.popLoop (ctxLen : Nat) : Nat → HtmlSerializer → HtmlSerializer
  | 0, st => st
  | fuel + 1, st =>
    if ctxLen < st.open_element_path.length then
      match st.open_element_path.getLast? with
      | some closed =>
        HtmlSerializer.popLoop ctxLen fuel
          { out := st.out ++ [SerOut.endElem closed.name],
            open_element_path := st.open_element_path.dropLast }
      | none => st
    else st

/-- Mirrors `HtmlSerializer::pop_to_path` (src/src/lib.rs lines 96–114).
`none` models the `assert!` (a prefix position of the incoming context
disagrees with the local stack) and the `panic!` (the incoming context is
strictly longer than the local stack). -/
def HtmlSerializer.pop_to_path (st : HtmlSerializer) (context : Context) :
    Option HtmlSerializer :=
  if (context.zip st.open_element_path).all fun ab => ab.1.handle == ab.2.handle then
    if context.length > st.open_element_path.length then none
    else some (HtmlSerializer.popLoop context.length st.open_element_path.length st)
  else none

/-- Mirrors `HtmlSink::append_element` for `&mut HtmlSerializer`. -/
def HtmlSerializer.append_element (st : HtmlSerializer) (context : Context)
    (element : HtmlPathElement) : Option HtmlSerializer :=
  match st.pop_to_path context with
  | none => none
  | some st1 =>
    some { out := st1.out ++ [SerOut.startElem element.name element.attrs],
           open_element_path := st1.open_element_path ++ [⟨element.handle, element.name⟩] }

/-- Mirrors `HtmlSink::append_text` for `&mut HtmlSerializer`. -/
def HtmlSerializer.append_text (st : HtmlSerializer) (context : Context)
    (text : String) : Option HtmlSerializer :=
  match st.pop_to_path context with
  | none => none
  | some st1 => some { st1 with out := st1.out ++ [SerOut.text text] }

/-- Mirrors `HtmlSink::append_comment` for `&mut HtmlSerializer`. -/
def HtmlSerializer.append_comment (st : HtmlSerializer) (context : Context)
    (text : String) : Option HtmlSerializer :=
  match st.pop_to_path context with
  | none => none
  | some st1 => some { st1 with out := st1.out ++ [SerOut.comment text] }

/-- Mirrors `HtmlSink::reset` for `&mut HtmlSerializer`:
`self.pop_to_path(&[])`. -/
def HtmlSerializer.reset (st : HtmlSerializer) : Option HtmlSerializer :=
  st.pop_to_path []

/-- Mirrors `HtmlSink::append_doctype_to_document` for
`&mut HtmlSerializer`. -/
def HtmlSerializer.append_doctype_to_document (st : HtmlSerializer)
    (name _publicId _systemId : String) : HtmlSerializer :=
  { st with out := st.out ++ [SerOut.doctype name] }

/-! ### ElementRemover, src/src/lib.rs lines 174–251 -/

/-- Mirrors `ElementRemover`: the inner sink is a recording sink (its
state is the received event list); the matcher is passed to each call. -/
structure ElementRemover where
  inner : List SinkEvent
  skip_handle : Option Nat
deriving DecidableEq, Repr

/-- Mirrors `ElementRemover::wrap`. -/
def ElementRemover.wrap : ElementRemover :=
  { inner := [], skip_handle := none }

/-- The fall-through tail of `ElementRemover::append_element`: evaluate
the matcher; on match start a new skip range at this element's handle; on
no match forward unchanged. -/
def ElementRemover.handleElement (cm : Context → HtmlPathElement → Bool)
    (st : ElementRemover) (context : Context) (element : HtmlPathElement) :
    ElementRemover :=
  if cm context element then { st with skip_handle := some element.handle }
  else { st with inner := st.inner ++ [SinkEvent.element context element] }

/-- Mirrors `HtmlSink::append_element` for `ElementRemover`
(src/src/lib.rs lines 205–223). -/
def ElementRemover.append_element (cm : Context → HtmlPathElement → Bool)
    (st : ElementRemover) (context : Context) (element : HtmlPathElement) :
    ElementRemover :=
  match st.skip_handle with
  | some h =>
    if context.any fun elem => elem.handle == h then st
    else ElementRemover.handleElement cm { st with skip_handle := none } context element
  | none => ElementRemover.handleElement cm st context element

/-- Mirrors `HtmlSink::append_text` for `ElementRemover`. -/
def ElementRemover.append_text (st : ElementRemover) (context : Context)
    (text : String) : ElementRemover :=
  match st.skip_handle with
  | some h =>
    if context.any fun elem => elem.handle == h then st
    else { st with skip_handle := none, inner := st.inner ++ [SinkEvent.text context text] }
  | none => { st with inner := st.inner ++ [SinkEvent.text context text] }

/-- Mirrors `HtmlSink::append_comment` for `ElementRemover`. -/
def ElementRemover.append_comment (st : ElementRemover) (context : Context)
    (text : String) : ElementRemover :=
  match st.skip_handle with
  | some h =>
    if context.any fun elem => elem.handle == h then st
    else { st with skip_handle := none, inner := st.inner ++ [SinkEvent.comment context text] }
  | none => { st with inner := st.inner ++ [SinkEvent.comment context text] }

/-- Mirrors `HtmlSink::reset` for `ElementRemover` (src/src/lib.rs lines
247–250): clear the skip range, reset the inner sink and return its
output (the recorded events). -/
def ElementRemover.reset (st : ElementRemover) : ElementRemover × List SinkEvent :=
  ({ inner := [], skip_handle := none }, st.inner)

/-! ### RootFilter, src/src/lib.rs lines 253–359 -/

/-- Mirrors `RootFilter` with a recording inner sink; `output` collects one
recorded event list per extracted subtree. -/
structure RootFilter where
  inner : List SinkEvent
  select_handle : Option Nat
  output : List (List SinkEvent)
deriving DecidableEq, Repr

/-- Mirrors `RootFilter::wrap`. -/
def RootFilter.wrap : RootFilter :=
  { inner := [], select_handle := none, output := [] }

/-- Mirrors `context.iter().enumerate().find_map(|(index, elem)| (elem.handle == select_handle).then_some(index))`:
the index of the first frame carrying the given handle. -/
def findHandleIdx (sh : Nat) : Context → Option Nat
  | [] => none
  | f :: rest =>
    if f.handle == sh then some 0
    else (findHandleIdx sh rest).map fun i => i + 1

/-- The selection-start tail of `RootFilter::append_element`: on a
context match, feed the element to the inner sink with an empty context
and record its handle as the selection root. -/
def RootFilter.startSelect (cm : Context → HtmlPathElement → Bool)
    (st : RootFilter) (context : Context) (element : HtmlPathElement) : RootFilter :=
  if cm context element then
    { st with inner := st.inner ++ [SinkEvent.element [] element],
              select_handle := some element.handle }
  else st

/-- Mirrors `HtmlSink::append_element` for `RootFilter` (src/src/lib.rs
lines 289–316). -/
def RootFilter.append_element (cm : Context → HtmlPathElement → Bool)
    (st : RootFilter) (context : Context) (element : HtmlPathElement) : RootFilter :=
  match st.select_handle with
  | some sh =>
    match findHandleIdx sh context with
    | some i =>
      { st with inner := st.inner ++ [SinkEvent.element (context.drop i) element] }
    | none =>
      RootFilter.startSelect cm
        { st with select_handle := none, output := st.output ++ [st.inner], inner := [] }
        context element
  | none => RootFilter.startSelect cm st context element

/-- Mirrors `HtmlSink::append_text` for `RootFilter` (src/src/lib.rs lines
318–333). -/
def RootFilter.append_text (st : RootFilter) (context : Context) (text : String) :
    RootFilter :=
  match st.select_handle with
  | some sh =>
    match findHandleIdx sh context with
    | some i => { st with inner := st.inner ++ [SinkEvent.text (context.drop i) text] }
    | none => { st with select_handle := none, output := st.output ++ [st.inner], inner := [] }
  | none => st

/-- Mirrors `HtmlSink::append_comment` for `RootFilter`. -/
def RootFilter.append_comment (st : RootFilter) (context : Context) (text : String) :
    RootFilter :=
  match st.select_handle with
  | some sh =>
    match findHandleIdx sh context with
    | some i => { st with inner := st.inner ++ [SinkEvent.comment (context.drop i) text] }
    | none => { st with select_handle := none, output := st.output ++ [st.inner], inner := [] }
  | none => st

/-- Mirrors `HtmlSink::reset` for `RootFilter` (src/src/lib.rs lines
352–358): force-close an in-flight selection, then hand back and clear the
accumulated collection. -/
def RootFilter.reset (st : RootFilter) : RootFilter × List (List SinkEvent) :=
  match st.select_handle with
  | some _ =>
    ({ inner := [], select_handle := none, output := [] },
      st.output ++ [st.inner])
  | none => ({ st with output := [] }, st.output)

/-! ### ElementSkipper, src/src/lib.rs lines 361–427 -/

/-- Modelled from the spec: the `Selector` trait lives in
`src/selector.rs`, which is not part of the provided sources.  Per spec
§4.5 and §6, an `ElementSkipper`'s match capability "tests a single
element (no ancestor context)", i.e. for a plain single-element selector
`context_match(context, element)` ignores the context and tests only the
element with `is_match`. -/
def selectorContextMatch (p : HtmlPathElement → Bool) (_context : Context)
    (element : HtmlPathElement) : Bool :=
  p element

/-- Mirrors `HtmlSink::append_element` for `ElementSkipper` (src/src/lib.rs
lines 387–402); the skipper carries no state of its own, so the recording
inner sink's event list is the whole state. -/
def ElementSkipper.append_element (p : HtmlPathElement → Bool)
    (inner : List SinkEvent) (context : Context) (element : HtmlPathElement) :
    List SinkEvent :=
  if selectorContextMatch p context element then inner
  else
    inner ++ [SinkEvent.element (context.filter fun e => !p e) element]

/-- Mirrors `HtmlSink::append_text` for `ElementSkipper` (src/src/lib.rs
lines 404–412). -/
def ElementSkipper.append_text (p : HtmlPathElement → Bool)
    (inner : List SinkEvent) (context : Context) (text : String) : List SinkEvent :=
  inner ++ [SinkEvent.text (context.filter fun e => !p e) text]

/-- Mirrors `HtmlSink::append_comment` for `ElementSkipper`. -/
def ElementSkipper.append_comment (p : HtmlPathElement → Bool)
    (inner : List SinkEvent) (context : Context) (text : String) : List SinkEvent :=
  inner ++ [SinkEvent.comment (context.filter fun e => !p e) text]

/-- Mirrors `HtmlSink::append_doctype_to_document` for `ElementSkipper`
(src/src/lib.rs lines 379–385): the body is empty — nothing is forwarded. -/
def ElementSkipper.append_doctype_to_document (_p : HtmlPathElement → Bool)
    (inner : List SinkEvent) (_name _publicId _systemId : String) : List SinkEvent :=
  inner

/-- Mirrors `HtmlSink::reset` for `ElementSkipper`: delegates to the inner
sink (here: return and clear the record). -/
def ElementSkipper.reset (inner : List SinkEvent) : List SinkEvent × List SinkEvent :=
  ([], inner)

/-! ### Concrete instances used by witnesses and counterexamples -/

/-- A context matcher selecting elements named `p` (as `css_select!("p")`
does in the repository's tests). -/
def cmP : Context → HtmlPathElement → Bool := fun _ e => e.name == "p"

/-- A matcher that never matches. -/
def cmNever : Context → HtmlPathElement → Bool := fun _ _ => false

/-- A single-element predicate matching elements named `x`. -/
def pX : HtmlPathElement → Bool := fun f => f.name == "x"

/-- An adapter state with a latched parse error. -/
def sErr : ParseTraverser :=
  { parseError := some "boom", handle := 1, traversal := [⟨1, "a", []⟩], freeNodes := [] }

/-- An adapter state with one open frame and one pending element. -/
def sPend : ParseTraverser :=
  { parseError := none, handle := 2, traversal := [⟨1, "html", []⟩],
    freeNodes := [(2, Node.element ⟨2, "p", []⟩)] }

/-! ### Trace predicates and the adapter invariant (for claim C5) -/

/-- For each structural stream event (doctype events carry no context and
are omitted): its context paired with the open path it leaves behind — the
context plus the element itself for an `element` event, the context alone
for text and comments. -/
def structuralPaths (evs : List SinkEvent) : List (Context × Context) :=
  evs.filterMap fun e =>
    match e with
    | SinkEvent.element ctx f => some (ctx, ctx ++ [f])
    | SinkEvent.text ctx _ => some (ctx, ctx)
    | SinkEvent.comment ctx _ => some (ctx, ctx)
    | SinkEvent.doctype _ _ _ => none

/-- Boolean prefix test on contexts. -/
def isPre : Context → Context → Bool
  | [], _ => true
  | _ :: _, [] => false
  | a :: as, b :: bs => decide (a = b) && isPre as bs

/-- Claim C5's pairwise condition on the structural event sequence: each
event's context is a prefix-extension or a prefix of the previous event's
open path. -/
def pairwiseConsecutiveB : List (Context × Context) → Bool
  | (_, op1) :: (c2, op2) :: rest =>
    (isPre op1 c2 || isPre c2 op1) && pairwiseConsecutiveB ((c2, op2) :: rest)
  | _ => true

/-- The chain invariant threaded through a run: starting from the open
path `prev`, each structural event's context is a prefix of the open path
left by its predecessor. -/
def chainFrom : Context → List (Context × Context) → Prop
  | _, [] => True
  | prev, pr :: rest => pr.1 <+: prev ∧ chainFrom pr.2 rest

/-- The open path left behind after a structural event sequence. -/
def endPath : Context → List (Context × Context) → Context
  | prev, [] => prev
  | _, pr :: rest => endPath pr.2 rest

/-- The adapter's state invariant: traversal handles are pairwise
distinct, all known handles are bounded by the allocation counter, and no
handle is simultaneously on the traversal stack and in the pending pool. -/
structure Inv (s : ParseTraverser) : Prop where
  travNodup : (s.traversal.map HtmlPathElement.handle).Nodup
  travLe : ∀ f ∈ s.traversal, f.handle ≤ s.handle
  freeLe : ∀ kv ∈ s.freeNodes, kv.1 ≤ s.handle
  disj : ∀ f ∈ s.traversal, ∀ kv ∈ s.freeNodes, f.handle ≠ kv.1

/-- A concrete engine-call trace (create `<a>`, append it to the root,
append text under it), used by the C5 witness. -/
def c5calls : List EngineCall :=
  [EngineCall.createElement "a" [], EngineCall.appendCall 0 (NodeOrText.appendNode 1),
    EngineCall.appendCall 1 (NodeOrText.appendText "t")]

/-- The events the adapter emits on `c5calls`. -/
def c5events : List SinkEvent :=
  [SinkEvent.element [] ⟨1, "a", []⟩, SinkEvent.text [⟨1, "a", []⟩] "t"]

/-! ## Theorems -/

/-- C1 counterexample: calling `append` with parent handle 5 — which is
neither the document root sentinel 0 nor on the (empty) traversal stack —
does not fail: the call is accepted (no panic), emits no event, latches no
error and leaves the state unchanged.  This is a silent no-op, refuting
the claim that such a call "is reported as a failure rather than
accepted". -/
theorem c1_counterexample :
    ParseTraverser.new_document.append 5 (NodeOrText.appendText "x") =
        some (ParseTraverser.new_document, [])
      ∧ ((5 == 0 ||
            ParseTraverser.new_document.traversal.any fun node => node.handle == 5) = false)
      ∧ ParseTraverser.new_document.parseError = none := by
  decide

/-- C1 (amended): for every call to the adapter's `append` whose parent
handle is neither the document root sentinel 0 nor the handle of a frame
on the traversal stack, the call is silently ignored: it is accepted
without failure, emits no stream event and leaves the adapter state
unchanged. -/
theorem c1_amended_silent_noop (s : ParseTraverser) (parent : Nat) (child : NodeOrText)
    (h : (parent == 0 || s.traversal.any fun node => node.handle == parent) = false) :
    s.append parent child = some (s, []) := by
  simp [ParseTraverser.append, h]

/-- C1 witness: the amended statement applied at a fragment-mode adapter
and the invalid parent handle 7. -/
theorem c1_witness :
    ParseTraverser.new_fragment.append 7 (NodeOrText.appendText "y") =
      some (ParseTraverser.new_fragment, []) :=
  c1_amended_silent_noop ParseTraverser.new_fragment 7 (NodeOrText.appendText "y") (by decide)

/-- C2 counterexample: with the root filter Selecting(1) after matching
`<p>` (handle 1), a direct child `<b>` (handle 2) arriving with incoming
context `[p]` — which still contains handle 1 — is forwarded with context
`[p]`, not with the empty context the claim requires (the selected root is
kept, not excluded). -/
theorem c2_counterexample :
    (RootFilter.append_element cmP
        (RootFilter.append_element cmP RootFilter.wrap [] ⟨1, "p", []⟩)
        [⟨1, "p", []⟩] ⟨2, "b", []⟩).inner =
      [SinkEvent.element [] ⟨1, "p", []⟩,
       SinkEvent.element [⟨1, "p", []⟩] ⟨2, "b", []⟩]
  ∧ (RootFilter.append_element cmP RootFilter.wrap [] ⟨1, "p", []⟩).select_handle = some 1
  ∧ SinkEvent.element [⟨1, "p", []⟩] ⟨2, "b", []⟩
      ≠ SinkEvent.element ([] : Context) ⟨2, "b", []⟩ := by
  decide

/-- Auxiliary: the first index found by `findHandleIdx` points at a frame
carrying the searched handle, so dropping up to that index leaves that
frame in front. -/
theorem findHandleIdx_head (sh : Nat) :
    ∀ (l : Context) (i : Nat), findHandleIdx sh l = some i →
      ∃ f, (l.drop i).head? = some f ∧ f.handle = sh := by
  intro l
  induction l with
  | nil => intro i h; simp [findHandleIdx] at h
  | cons x xs ih =>
    intro i h
    by_cases hx : (x.handle == sh) = true
    · rw [findHandleIdx, if_pos hx] at h
      cases h
      exact ⟨x, rfl, by simpa using hx⟩
    · rw [findHandleIdx, if_neg hx] at h
      cases hj : findHandleIdx sh xs with
      | none => rw [hj] at h; cases h
      | some j =>
        rw [hj] at h
        cases h
        simpa using ih j hj

/-- C2 (amended): while the root filter is Selecting(sh), an event whose
incoming context still contains sh is forwarded to the inner sink with the
context truncated to start AT the first occurrence of sh — the selected
root itself is kept as the first forwarded frame — so a direct child of
the selected root is forwarded with a one-frame context, not an empty
one. -/
theorem c2_amended_rebase_keeps_root (cm : Context → HtmlPathElement → Bool)
    (st : RootFilter) (context : Context) (element : HtmlPathElement)
    (text c : String) (sh i : Nat)
    (hsel : st.select_handle = some sh)
    (hfind : findHandleIdx sh context = some i) :
    RootFilter.append_element cm st context element =
        { st with inner := st.inner ++ [SinkEvent.element (context.drop i) element] }
  ∧ RootFilter.append_text st context text =
        { st with inner := st.inner ++ [SinkEvent.text (context.drop i) text] }
  ∧ RootFilter.append_comment st context c =
        { st with inner := st.inner ++ [SinkEvent.comment (context.drop i) c] }
  ∧ ∃ f, (context.drop i).head? = some f ∧ f.handle = sh := by
  refine ⟨?_, ?_, ?_, findHandleIdx_head sh context i hfind⟩ <;>
    simp [RootFilter.append_element, RootFilter.append_text,
      RootFilter.append_comment, hsel, hfind]

/-- C2 witness: the amended statement applied with Selecting(1) and a
direct child of the selected root — the forwarded context is the
one-frame path `[p]`. -/
theorem c2_witness :
    RootFilter.append_element cmP ⟨[], some 1, []⟩ [⟨1, "p", []⟩] ⟨3, "i", []⟩ =
      ⟨[SinkEvent.element [⟨1, "p", []⟩] ⟨3, "i", []⟩], some 1, []⟩ := by
  have h := (c2_amended_rebase_keeps_root cmP ⟨[], some 1, []⟩ [⟨1, "p", []⟩]
    ⟨3, "i", []⟩ "t" "c" 1 0 rfl (by decide)).1
  exact h.trans (by decide)

/-- C3 counterexample: after `parse_error("first")` then
`parse_error("second")`, the latched error — and the error reported by
`finish()` — is "second", the message of the LAST call, refuting
"the first latched error wins". -/
theorem c3_counterexample :
    ((ParseTraverser.new_document.parse_error "first").parse_error "second").parseError
        = some "second"
      ∧ ParseTraverser.finish
          ((ParseTraverser.new_document.parse_error "first").parse_error "second") []
          = Except.error "second"
      ∧ ("second" : String) ≠ "first" :=
  ⟨rfl, rfl, by decide⟩

/-- C3 (amended): with two or more `parse_error` calls, the error that
`finish()` reports is the message of the LAST `parse_error` call (each
call overwrites the latch); and a `parse_error` call by itself performs no
unwind of the traversal stack and emits no stream event. -/
theorem c3_amended_last_error_wins (s : ParseTraverser) (m1 m2 : String)
    (inner : List SinkEvent) :
    ((s.parse_error m1).parse_error m2).parseError = some m2
  ∧ ParseTraverser.finish ((s.parse_error m1).parse_error m2) inner = Except.error m2
  ∧ (s.parse_error m1).traversal = s.traversal
  ∧ step s (EngineCall.parseErrorCall m1) = some (s.parse_error m1, []) :=
  ⟨rfl, rfl, rfl, rfl⟩

/-- C4: for a valid `append` on an error-free adapter, after unwinding to
the parent: a pending element is removed from the pool, emitted as
`append_element` with the unwound stack as context and pushed as the new
top frame; a pending comment is emitted as `append_comment` with that
context, removed from the pool and never pushed; raw text is emitted as
`append_text` with that context and nothing is pushed. -/
theorem c4_append_dispatch (s : ParseTraverser) (parent : Nat)
    (hok : (parent == 0 || s.traversal.any fun node => node.handle == parent) = true)
    (hne : s.parseError = none) :
    (∀ (h : Nat) (e : HtmlPathElement),
        lookupFree h s.freeNodes = some (Node.element e) → e.handle = h →
        s.append parent (NodeOrText.appendNode h) =
          some ({ s with traversal := popToParent parent s.traversal ++ [e],
                         freeNodes := removeFree h s.freeNodes },
            [SinkEvent.element (popToParent parent s.traversal) e]))
  ∧ (∀ (h : Nat) (t : String),
        lookupFree h s.freeNodes = some (Node.comment t) →
        s.append parent (NodeOrText.appendNode h) =
          some ({ s with traversal := popToParent parent s.traversal,
                         freeNodes := removeFree h s.freeNodes },
            [SinkEvent.comment (popToParent parent s.traversal) t]))
  ∧ (∀ t : String,
        s.append parent (NodeOrText.appendText t) =
          some ({ s with traversal := popToParent parent s.traversal },
            [SinkEvent.text (popToParent parent s.traversal) t])) := by
  refine ⟨?_, ?_, ?_⟩
  · intro h e hlk hh
    simp [ParseTraverser.append, hok, hne, hlk, hh]
  · intro h t hlk
    simp [ParseTraverser.append, hok, hne, hlk]
  · intro t
    simp [ParseTraverser.append, hok, hne]

/-- C4 witness: appending the pending element 2 under the open frame 1
removes it from the pool, emits it with context `[html]` and pushes it. -/
theorem c4_witness :
    sPend.append 1 (NodeOrText.appendNode 2) =
      some ({ parseError := none, handle := 2,
              traversal := [⟨1, "html", []⟩, ⟨2, "p", []⟩], freeNodes := [] },
        [SinkEvent.element [⟨1, "html", []⟩] ⟨2, "p", []⟩]) := by
  have h := (c4_append_dispatch sPend 1 (by decide) rfl).1 2 ⟨2, "p", []⟩ (by decide) rfl
  exact h.trans (by decide)

/-- C7: while a skip range rooted at h is active, every element, text and
comment event whose context contains h is suppressed; on the first event
whose context no longer contains h the range ends and the event is
processed normally — for an element the matcher decides between starting a
new skip range (element suppressed) and forwarding unchanged, text and
comment are forwarded; `reset()` clears any in-flight skip range. -/
theorem c7_remover_skip_range (cm : Context → HtmlPathElement → Bool)
    (st : ElementRemover) (context : Context) (element : HtmlPathElement)
    (text c : String) (h : Nat) :
    (st.skip_handle = some h → (context.any fun e => e.handle == h) = true →
        ElementRemover.append_element cm st context element = st
      ∧ ElementRemover.append_text st context text = st
      ∧ ElementRemover.append_comment st context c = st)
  ∧ (st.skip_handle = some h → (context.any fun e => e.handle == h) = false →
        ElementRemover.append_element cm st context element =
          (if cm context element then { st with skip_handle := some element.handle }
            else { st with skip_handle := none,
                           inner := st.inner ++ [SinkEvent.element context element] })
      ∧ ElementRemover.append_text st context text =
          { st with skip_handle := none, inner := st.inner ++ [SinkEvent.text context text] }
      ∧ ElementRemover.append_comment st context c =
          { st with skip_handle := none, inner := st.inner ++ [SinkEvent.comment context c] })
  ∧ ((ElementRemover.reset st).1.skip_handle = none
      ∧ (ElementRemover.reset st).2 = st.inner) := by
  refine ⟨fun h1 h2 => ?_, fun h1 h2 => ?_, rfl, rfl⟩
  · refine ⟨?_, ?_, ?_⟩ <;>
      simp [ElementRemover.append_element, ElementRemover.append_text,
        ElementRemover.append_comment, h1, h2]
  · refine ⟨?_, ?_, ?_⟩ <;>
      simp [ElementRemover.append_element, ElementRemover.append_text,
        ElementRemover.append_comment, ElementRemover.handleElement, h1, h2]

/-- C7 witness: with an active skip range rooted at 5, an element whose
context contains 5 is suppressed; a text event whose context no longer
contains 5 ends the range and is forwarded. -/
theorem c7_witness :
    ElementRemover.append_element cmNever ⟨[], some 5⟩ [⟨5, "d", []⟩] ⟨6, "e", []⟩
        = ⟨[], some 5⟩
  ∧ ElementRemover.append_text ⟨[], some 5⟩ [] "t" = ⟨[SinkEvent.text [] "t"], none⟩ := by
  constructor
  · exact ((c7_remover_skip_range cmNever ⟨[], some 5⟩ [⟨5, "d", []⟩] ⟨6, "e", []⟩
      "t" "c" 5).1 rfl (by decide)).1
  · have h := ((c7_remover_skip_range cmNever ⟨[], some 5⟩ [] ⟨6, "e", []⟩
      "t" "c" 5).2.1 rfl (by decide)).2.1
    exact h.trans (by decide)

/-- C8: an element matching the skipper's single-element predicate is not
forwarded; a non-matching element, and every text and comment event, is
forwarded with the incoming context refiltered — every frame individually
matching the predicate removed, the rest kept in order (`List.filter`) —
so a matching element never appears on any forwarded path, while its
descendants (carrying it only in their contexts) are still forwarded. -/
theorem c8_skipper_elision (p : HtmlPathElement → Bool) (inner : List SinkEvent)
    (context : Context) (element : HtmlPathElement) (text c : String) :
    (p element = true → ElementSkipper.append_element p inner context element = inner)
  ∧ (p element = false →
      ElementSkipper.append_element p inner context element =
        inner ++ [SinkEvent.element (context.filter fun f => !p f) element])
  ∧ ElementSkipper.append_text p inner context text =
      inner ++ [SinkEvent.text (context.filter fun f => !p f) text]
  ∧ ElementSkipper.append_comment p inner context c =
      inner ++ [SinkEvent.comment (context.filter fun f => !p f) c]
  ∧ (∀ f ∈ context.filter fun f => !p f, p f = false)
  ∧ (p element = true → element ∉ context.filter fun f => !p f) := by
  refine ⟨fun h => ?_, fun h => ?_, rfl, rfl, fun f hf => ?_, fun h hmem => ?_⟩
  · simp [ElementSkipper.append_element, selectorContextMatch, h]
  · simp [ElementSkipper.append_element, selectorContextMatch, h]
  · rcases List.mem_filter.mp hf with ⟨-, hpf⟩
    simpa using hpf
  · rcases List.mem_filter.mp hmem with ⟨-, hpf⟩
    rw [h] at hpf
    cases hpf

/-- C8 witness: a matching `<x>` element is dropped; a non-matching `<b>`
under ancestors `[a, x]` is forwarded re-parented to `[a]`. -/
theorem c8_witness :
    ElementSkipper.append_element pX [] [⟨1, "a", []⟩, ⟨2, "x", []⟩] ⟨3, "x", []⟩ = []
  ∧ ElementSkipper.append_element pX [] [⟨1, "a", []⟩, ⟨2, "x", []⟩] ⟨3, "b", []⟩ =
      [SinkEvent.element [⟨1, "a", []⟩] ⟨3, "b", []⟩] := by
  constructor
  · exact (c8_skipper_elision pX [] [⟨1, "a", []⟩, ⟨2, "x", []⟩] ⟨3, "x", []⟩ "" "").1
      (by decide)
  · have h := (c8_skipper_elision pX [] [⟨1, "a", []⟩, ⟨2, "x", []⟩] ⟨3, "b", []⟩ "" "").2.1
      (by decide)
    exact h.trans (by decide)

/-- C9: if a parse error is latched, `finish()` reports exactly that
message; otherwise `finish()` wraps the inner consumer's output as
success.  After an error is latched every further `append` call is
accepted (returns without panicking) but emits no stream event — at most
the traversal stack is unwound. -/
theorem c9_finish_latched (s : ParseTraverser) (m : String)
    (hm : s.parseError = some m) :
    (∀ inner : List SinkEvent, ParseTraverser.finish s inner = Except.error m)
  ∧ (∀ s2 : ParseTraverser, s2.parseError = none →
      ∀ inner : List SinkEvent, ParseTraverser.finish s2 inner = Except.ok inner)
  ∧ (∀ (parent : Nat) (child : NodeOrText),
      s.append parent child =
        some ({ s with traversal :=
            if parent == 0 || s.traversal.any fun node => node.handle == parent
            then popToParent parent s.traversal else s.traversal }, [])) := by
  refine ⟨fun inner => ?_, fun s2 h2 inner => ?_, fun parent child => ?_⟩
  · simp [ParseTraverser.finish, hm]
  · simp [ParseTraverser.finish, h2]
  · by_cases hv : (parent == 0 || s.traversal.any fun node => node.handle == parent) = true
    · simp [ParseTraverser.append, hv, hm]
    · simp [ParseTraverser.append, hv]

/-- C9 witness: with the latched state `sErr`, `finish` reports the
latched message, and a further append is accepted with no emission. -/
theorem c9_witness :
    ParseTraverser.finish sErr [] = Except.error "boom"
  ∧ sErr.append 3 (NodeOrText.appendText "x") = some (sErr, []) := by
  have h := c9_finish_latched sErr "boom" rfl
  exact ⟨h.1 [], (h.2.2 3 (NodeOrText.appendText "x")).trans (by decide)⟩

/-- Auxiliary: closed form of the serializer's pop-and-close loop.  When
the requested context length is at most the local stack depth (and the
fuel covers the stack, as `pop_to_path` arranges), the loop emits one
closing tag per excess local frame, innermost first, and truncates the
local stack to the context length. -/
theorem popLoop_spec (ctxLen : Nat) :
    ∀ (fuel : Nat) (st : HtmlSerializer),
      ctxLen ≤ st.open_element_path.length → st.open_element_path.length ≤ fuel →
      HtmlSerializer.popLoop ctxLen fuel st =
        { out := st.out ++
            ((st.open_element_path.drop ctxLen).reverse.map fun ob => SerOut.endElem ob.name),
          open_element_path := st.open_element_path.take ctxLen } := by
  intro fuel
  induction fuel with
  | zero =>
    intro st h1 h2
    have hnil : st.open_element_path = [] :=
      List.length_eq_zero.mp (Nat.le_antisymm h2 (Nat.zero_le _))
    simp [HtmlSerializer.popLoop, hnil]
    rw [← hnil]
  | succ n ih =>
    intro st h1 h2
    rw [HtmlSerializer.popLoop]
    by_cases hlt : ctxLen < st.open_element_path.length
    · rw [if_pos hlt]
      rcases List.eq_nil_or_concat st.open_element_path with hnil | ⟨ys, y, heq⟩
      · rw [hnil] at hlt; cases (Nat.not_lt_zero _) hlt
      · rw [List.concat_eq_append] at heq
        have hys : ctxLen ≤ ys.length := by
          have := hlt
          rw [heq, List.length_append, List.length_singleton] at this
          exact Nat.lt_succ_iff.mp this
        have hysn : ys.length ≤ n := by
          have := h2
          rw [heq, List.length_append, List.length_singleton] at this
          exact Nat.succ_le_succ_iff.mp this
        rw [heq, List.getLast?_concat]
        dsimp only
        rw [ih { out := st.out ++ [SerOut.endElem y.name],
                  open_element_path := (ys ++ [y]).dropLast }
            (by rw [List.dropLast_concat]; exact hys)
            (by rw [List.dropLast_concat]; exact hysn)]
        rw [List.dropLast_concat]
        have hdrop : (ys ++ [y]).drop ctxLen = ys.drop ctxLen ++ [y] :=
          List.drop_append_of_le_length hys
        have htake : (ys ++ [y]).take ctxLen = ys.take ctxLen :=
          List.take_append_of_le_length hys
        rw [hdrop, htake]
        simp
    · rw [if_neg hlt]
      have hlen : ctxLen = st.open_element_path.length :=
        Nat.le_antisymm h1 (Nat.le_of_not_lt hlt)
      rw [hlen]
      simp

/-- C6: the serializer's reconciliation `pop_to_path` succeeds exactly
when the incoming context agrees with the local stack at every shared
prefix position and is no longer than the local stack; on success it pops
every excess local frame, emitting the closing tags innermost first, and
aborts (panics) otherwise — in which case every event handler also aborts
without producing output.  `reset()` reconciles against the empty context,
emitting closing tags for every remaining open frame. -/
theorem c6_serializer_reconciliation (st : HtmlSerializer) (context : Context)
    (element : HtmlPathElement) (text c : String) :
    (st.pop_to_path context =
        if ((context.zip st.open_element_path).all fun ab => ab.1.handle == ab.2.handle)
            ∧ context.length ≤ st.open_element_path.length
        then some
          { out := st.out ++ ((st.open_element_path.drop context.length).reverse.map fun ob => SerOut.endElem ob.name),
            open_element_path := st.open_element_path.take context.length }
        else none)
  ∧ st.reset = some
      { out := st.out ++ (st.open_element_path.reverse.map fun ob => SerOut.endElem ob.name),
        open_element_path := [] }
  ∧ (st.pop_to_path context = none →
      st.append_element context element = none
      ∧ st.append_text context text = none
      ∧ st.append_comment context c = none) := by
  have hmain : ∀ ctx : Context, st.pop_to_path ctx =
      if ((ctx.zip st.open_element_path).all fun ab => ab.1.handle == ab.2.handle)
          ∧ ctx.length ≤ st.open_element_path.length
      then some
        { out := st.out ++ ((st.open_element_path.drop ctx.length).reverse.map fun ob => SerOut.endElem ob.name),
          open_element_path := st.open_element_path.take ctx.length }
      else none := by
    intro ctx
    unfold HtmlSerializer.pop_to_path
    by_cases hall : ((ctx.zip st.open_element_path).all
        fun ab => ab.1.handle == ab.2.handle) = true
    · rw [if_pos hall]
      by_cases hle : ctx.length ≤ st.open_element_path.length
      · rw [if_neg (Nat.not_lt.mpr hle), if_pos ⟨hall, hle⟩]
        rw [popLoop_spec ctx.length st.open_element_path.length st hle (Nat.le_refl _)]
      · rw [if_pos (Nat.lt_of_not_le hle), if_neg fun hc => hle hc.2]
    · rw [if_neg hall, if_neg fun hc => hall hc.1]
  refine ⟨hmain context, ?_, fun habort => ?_⟩
  · rw [HtmlSerializer.reset, hmain []]
    simp
  · refine ⟨?_, ?_, ?_⟩ <;>
      simp [HtmlSerializer.append_element, HtmlSerializer.append_text,
        HtmlSerializer.append_comment, habort]

/-- C6 witness: a context disagreeing with the local stack at position 0
makes `pop_to_path` — and with it `append_text` — abort. -/
theorem c6_witness :
    HtmlSerializer.pop_to_path ⟨[], [⟨1, "a"⟩]⟩ [⟨2, "b", []⟩] = none
  ∧ HtmlSerializer.append_text ⟨[], [⟨1, "a"⟩]⟩ [⟨2, "b", []⟩] "t" = none := by
  have h1 : HtmlSerializer.pop_to_path ⟨[], [⟨1, "a"⟩]⟩ [⟨2, "b", []⟩] = none := by decide
  exact ⟨h1, ((c6_serializer_reconciliation ⟨[], [⟨1, "a"⟩]⟩ [⟨2, "b", []⟩]
    ⟨3, "c", []⟩ "t" "u").2.2 h1).2.1⟩

/-- C10: the element skipper's `append_doctype_to_document` has an empty
body — it forwards nothing to the inner sink and leaves the inner sink's
state unchanged. -/
theorem c10_skipper_doctype_swallowed (p : HtmlPathElement → Bool)
    (inner : List SinkEvent) (name publicId systemId : String) :
    ElementSkipper.append_doctype_to_document p inner name publicId systemId = inner :=
  rfl

/-! ### Auxiliary lemmas for claim C5 -/

/-- Dropping the last entry of a list leaves a front segment of it. -/
theorem dropLastPre {α : Type} : ∀ l : List α, l.dropLast <+: l := by
  intro l
  induction l with
  | nil => exact ⟨[], rfl⟩
  | cons a t ih =>
    cases t with
    | nil => exact ⟨[a], rfl⟩
    | cons b t2 =>
      rw [List.dropLast_cons₂]
      exact List.cons_prefix_cons.mpr ⟨rfl, ih⟩

/-- The unwinding loop only pops: its result is a front segment of the
input stack. -/
theorem popToParentGo_pre (parent : Nat) :
    ∀ (fuel : Nat) (fs : List HtmlPathElement), popToParentGo parent fuel fs <+: fs := by
  intro fuel
  induction fuel with
  | zero => intro fs; exact List.prefix_refl _
  | succ n ih =>
    intro fs
    rw [popToParentGo]
    split
    · exact List.prefix_refl _
    · exact (ih fs.dropLast).trans (dropLastPre fs)

/-- `popToParent` yields a front segment of the traversal stack. -/
theorem popToParent_pre (parent : Nat) (fs : List HtmlPathElement) :
    popToParent parent fs <+: fs :=
  popToParentGo_pre parent fs.length fs

/-- `isPre` decides the prefix relation. -/
theorem isPre_iff : ∀ l1 l2 : Context, isPre l1 l2 = true ↔ l1 <+: l2 := by
  intro l1
  induction l1 with
  | nil => intro l2; simp [isPre]
  | cons a as ih =>
    intro l2
    cases l2 with
    | nil =>
      simp [isPre]
    | cons b bs =>
      simp [isPre, List.cons_prefix_cons, ih]

/-- Splitting the chain invariant across an append of event lists. -/
theorem chainFrom_append :
    ∀ (l1 l2 : List (Context × Context)) (prev : Context),
      chainFrom prev (l1 ++ l2) ↔ chainFrom prev l1 ∧ chainFrom (endPath prev l1) l2 := by
  intro l1
  induction l1 with
  | nil => intro l2 prev; simp [chainFrom, endPath]
  | cons pr rest ih =>
    intro l2 prev
    simp [chainFrom, endPath, ih, and_assoc]

/-- The final open path of an appended event sequence. -/
theorem endPath_append :
    ∀ (l1 l2 : List (Context × Context)) (prev : Context),
      endPath prev (l1 ++ l2) = endPath (endPath prev l1) l2 := by
  intro l1
  induction l1 with
  | nil => intro l2 prev; rfl
  | cons pr rest ih => intro l2 prev; simp [endPath, ih]

/-- The chain invariant entails the claim's pairwise condition. -/
theorem chainFrom_pairwise :
    ∀ (l : List (Context × Context)) (prev : Context),
      chainFrom prev l → pairwiseConsecutiveB l = true := by
  intro l
  induction l with
  | nil => intro prev h; rfl
  | cons x rest ih =>
    intro prev h
    obtain ⟨xc, xo⟩ := x
    cases rest with
    | nil => rfl
    | cons y rest2 =>
      obtain ⟨yc, yo⟩ := y
      obtain ⟨h1, h2⟩ := h
      have hy : yc <+: xo := h2.1
      have hp := ih xo h2
      simp only [pairwiseConsecutiveB, Bool.and_eq_true, Bool.or_eq_true]
      exact ⟨Or.inr ((isPre_iff yc xo).mpr hy), hp⟩

/-- A successful pool lookup locates the entry in the pool. -/
theorem lookupFree_mem (h : Nat) (l : List (Nat × Node)) (n : Node)
    (hlk : lookupFree h l = some n) : (h, n) ∈ l := by
  unfold lookupFree at hlk
  cases hf : l.find? fun kv => kv.1 == h with
  | none => rw [hf] at hlk; cases hlk
  | some kv =>
    obtain ⟨k, v⟩ := kv
    rw [hf] at hlk
    have hv : v = n := by
      simpa using hlk
    have hkey : (k == h) = true := by
      simpa using List.find?_some hf
    have hk : k = h := by simpa using hkey
    subst hv; subst hk
    exact List.mem_of_find?_eq_some hf

/-- Deletion from the pool only removes entries. -/
theorem removeFree_subset (h : Nat) (l : List (Nat × Node)) :
    ∀ kv ∈ removeFree h l, kv ∈ l :=
  fun _kv hkv => (List.mem_filter.mp hkv).1

/-- Entries surviving a pool deletion do not carry the deleted key. -/
theorem removeFree_ne (h : Nat) (l : List (Nat × Node)) :
    ∀ kv ∈ removeFree h l, kv.1 ≠ h := by
  intro kv hkv
  have hb := (List.mem_filter.mp hkv).2
  simpa using hb

/-- The freshly initialised document adapter satisfies the invariant. -/
theorem inv_new_document : Inv ParseTraverser.new_document := by
  constructor <;> simp [ParseTraverser.new_document]

/-- The freshly initialised fragment adapter satisfies the invariant. -/
theorem inv_new_fragment : Inv ParseTraverser.new_fragment := by
  constructor <;> simp [ParseTraverser.new_fragment]

/-- Creating a node (inserting a fresh handle into the pool) preserves the
invariant. -/
theorem inv_insert (s : ParseTraverser) (hInv : Inv s) (nd : Node) :
    Inv { s with handle := s.handle + 1,
                 freeNodes := (s.handle + 1, nd) :: removeFree (s.handle + 1) s.freeNodes } := by
  obtain ⟨h1, h2, h3, h4⟩ := hInv
  refine ⟨h1, ?_, ?_, ?_⟩
  · intro f hf; exact Nat.le_succ_of_le (h2 f hf)
  · intro kv hkv
    rcases List.mem_cons.mp hkv with rfl | hkv2
    · exact Nat.le_refl _
    · exact Nat.le_succ_of_le (h3 kv (removeFree_subset _ _ kv hkv2))
  · intro f hf kv hkv
    rcases List.mem_cons.mp hkv with rfl | hkv2
    · exact Nat.ne_of_lt (Nat.lt_succ_of_le (h2 f hf))
    · exact h4 f hf kv (removeFree_subset _ _ kv hkv2)

/-- `create_element` preserves the invariant. -/
theorem inv_create_element (s : ParseTraverser) (hInv : Inv s) (name : String)
    (attrs : List (String × String)) : Inv (s.create_element name attrs).1 :=
  inv_insert s hInv (Node.element ⟨s.handle + 1, name, attrs⟩)

/-- `create_comment` preserves the invariant. -/
theorem inv_create_comment (s : ParseTraverser) (hInv : Inv s) (text : String) :
    Inv (s.create_comment text).1 :=
  inv_insert s hInv (Node.comment text)

/-- Shrinking the traversal stack to a front segment and the pool to a
subset preserves the invariant, for any latched-error field. -/
theorem inv_sub (s : ParseTraverser) (hInv : Inv s) (pe : Option String)
    (trav : List HtmlPathElement) (freeN : List (Nat × Node))
    (htrav : trav <+: s.traversal) (hfree : ∀ kv ∈ freeN, kv ∈ s.freeNodes) :
    Inv { parseError := pe, handle := s.handle, traversal := trav, freeNodes := freeN } := by
  obtain ⟨h1, h2, h3, h4⟩ := hInv
  have hsub : ∀ f ∈ trav, f ∈ s.traversal := fun f hf => htrav.sublist.subset hf
  refine ⟨?_, ?_, ?_, ?_⟩
  · exact List.Nodup.sublist (List.Sublist.map _ htrav.sublist) h1
  · intro f hf; exact h2 f (hsub f hf)
  · intro kv hkv; exact h3 kv (hfree kv hkv)
  · intro f hf kv hkv; exact h4 f (hsub f hf) kv (hfree kv hkv)

/-- Appending a pending element — unwinding, removing it from the pool and
pushing it onto the traversal stack — preserves the invariant. -/
theorem inv_push (s : ParseTraverser) (hInv : Inv s) (pe : Option String)
    (parent hd : Nat) (e : HtmlPathElement)
    (hlk : lookupFree hd s.freeNodes = some (Node.element e)) (hh : e.handle = hd) :
    Inv { parseError := pe, handle := s.handle,
          traversal := popToParent parent s.traversal ++ [e],
          freeNodes := removeFree hd s.freeNodes } := by
  obtain ⟨h1, h2, h3, h4⟩ := hInv
  have hmem : (hd, Node.element e) ∈ s.freeNodes := lookupFree_mem hd _ _ hlk
  have htrav := popToParent_pre parent s.traversal
  have hsub : ∀ f ∈ popToParent parent s.traversal, f ∈ s.traversal :=
    fun f hf => htrav.sublist.subset hf
  have hn1 : ((popToParent parent s.traversal).map HtmlPathElement.handle).Nodup :=
    List.Nodup.sublist (List.Sublist.map _ htrav.sublist) h1
  refine ⟨?_, ?_, ?_, ?_⟩
  · rw [List.map_append]
    rw [List.nodup_append]
    refine ⟨hn1, List.nodup_singleton _, ?_⟩
    intro x hx hx2
    rcases List.mem_map.mp hx with ⟨f, hf, hfe⟩
    have hxe : x = e.handle := by simpa using hx2
    exact h4 f (hsub f hf) (hd, Node.element e) hmem (by rw [hfe, hxe, hh])
  · intro f hf
    rcases List.mem_append.mp hf with hf1 | hf2
    · exact h2 f (hsub f hf1)
    · have hfe : f = e := by simpa using hf2
      rw [hfe, hh]
      exact h3 (hd, Node.element e) hmem
  · intro kv hkv; exact h3 kv (removeFree_subset _ _ kv hkv)
  · intro f hf kv hkv
    rcases List.mem_append.mp hf with hf1 | hf2
    · exact h4 f (hsub f hf1) kv (removeFree_subset _ _ kv hkv)
    · have hfe : f = e := by simpa using hf2
      rw [hfe, hh]
      exact fun hcon => (removeFree_ne hd _ kv hkv) hcon.symm

/-- One engine call preserves the invariant, keeps the chain condition
from the current traversal stack, emits only duplicate-free contexts,
leaves the traversal stack as the final open path (when no error is
latched), and emits nothing structural once an error is latched. -/
theorem step_inv (s : ParseTraverser) (c : EngineCall) (s1 : ParseTraverser)
    (evs : List SinkEvent) (hInv : Inv s) (h : step s c = some (s1, evs)) :
    Inv s1
  ∧ chainFrom s.traversal (structuralPaths evs)
  ∧ (∀ pr ∈ structuralPaths evs, (pr.1.map HtmlPathElement.handle).Nodup)
  ∧ (s1.parseError = none → endPath s.traversal (structuralPaths evs) = s1.traversal)
  ∧ (s.parseError.isSome = true → s1.parseError.isSome = true ∧ structuralPaths evs = []) := by
  cases c with
  | createElement n a =>
    rw [step] at h
    obtain ⟨rfl, rfl⟩ : (s.create_element n a).1 = s1 ∧ [] = evs := by
      simpa using h
    exact ⟨inv_create_element s hInv n a, trivial, by simp [structuralPaths],
      fun _ => rfl, fun hs => ⟨hs, rfl⟩⟩
  | createComment t =>
    rw [step] at h
    obtain ⟨rfl, rfl⟩ : (s.create_comment t).1 = s1 ∧ [] = evs := by
      simpa using h
    exact ⟨inv_create_comment s hInv t, trivial, by simp [structuralPaths],
      fun _ => rfl, fun hs => ⟨hs, rfl⟩⟩
  | parseErrorCall m =>
    rw [step] at h
    obtain ⟨rfl, rfl⟩ : s.parse_error m = s1 ∧ [] = evs := by
      simpa using h
    refine ⟨?_, trivial, by simp [structuralPaths], ?_, fun hs => ⟨rfl, rfl⟩⟩
    · obtain ⟨h1, h2, h3, h4⟩ := hInv
      exact ⟨h1, h2, h3, h4⟩
    · intro hno
      cases hno
  | doctype n pubId sysId =>
    rw [step] at h
    obtain ⟨rfl, rfl⟩ : s = s1 ∧ [SinkEvent.doctype n pubId sysId] = evs := by
      simpa using h
    exact ⟨hInv, trivial, by simp [structuralPaths], fun _ => rfl, fun hs => ⟨hs, rfl⟩⟩
  | appendCall parent child =>
    rw [step] at h
    rw [ParseTraverser.append.eq_def] at h
    have htrav := popToParent_pre parent s.traversal
    have hnod : ((popToParent parent s.traversal).map HtmlPathElement.handle).Nodup :=
      List.Nodup.sublist (List.Sublist.map _ htrav.sublist) hInv.travNodup
    cases hcond : (parent == 0 || s.traversal.any fun node => node.handle == parent) with
    | false =>
      rw [hcond] at h
      obtain ⟨rfl, rfl⟩ : s = s1 ∧ [] = evs := by
        simpa using h
      exact ⟨hInv, trivial, by simp [structuralPaths], fun _ => rfl, fun hs => ⟨hs, rfl⟩⟩
    | true =>
      rw [hcond, if_pos rfl] at h
      cases hpe : s.parseError with
      | some m =>
        rw [hpe] at h
        simp only [Option.isNone_some, Bool.false_eq_true, if_false] at h
        simp only [Option.some.injEq, Prod.mk.injEq] at h
        obtain ⟨rfl, rfl⟩ := h
        refine ⟨inv_sub s hInv (some m) (popToParent parent s.traversal) s.freeNodes
            htrav (fun kv hkv => hkv),
          trivial, by simp [structuralPaths], ?_, fun hs => ⟨by simp, rfl⟩⟩
        intro hno
        simp at hno
      | none =>
        rw [hpe] at h
        simp only [Option.isNone_none, if_true] at h
        cases child with
        | appendText t =>
          simp only [Option.some.injEq, Prod.mk.injEq] at h
          obtain ⟨rfl, rfl⟩ := h
          refine ⟨inv_sub s hInv none (popToParent parent s.traversal) s.freeNodes
              htrav (fun kv hkv => hkv),
            ⟨htrav, trivial⟩, ?_, fun _ => rfl, fun hs => by simp [hpe] at hs⟩
          intro pr hpr
          have hpr2 : pr = (popToParent parent s.traversal, popToParent parent s.traversal) := by
            simpa [structuralPaths] using hpr
          rw [hpr2]
          exact hnod
        | appendNode hd =>
          dsimp only at h
          cases hlk : lookupFree hd s.freeNodes with
          | none =>
            rw [hlk] at h
            simp at h
          | some nd =>
            rw [hlk] at h
            cases nd with
            | comment t =>
              simp only [Option.some.injEq, Prod.mk.injEq] at h
              obtain ⟨rfl, rfl⟩ := h
              refine ⟨inv_sub s hInv none (popToParent parent s.traversal)
                  (removeFree hd s.freeNodes) htrav (removeFree_subset hd s.freeNodes),
                ⟨htrav, trivial⟩, ?_, fun _ => rfl, fun hs => by simp [hpe] at hs⟩
              intro pr hpr
              have hpr2 : pr =
                  (popToParent parent s.traversal, popToParent parent s.traversal) := by
                simpa [structuralPaths] using hpr
              rw [hpr2]
              exact hnod
            | element e =>
              dsimp only at h
              cases hbe : (e.handle == hd) with
              | false =>
                rw [hbe] at h
                simp at h
              | true =>
                rw [hbe, if_pos rfl] at h
                have hh : e.handle = hd := by simpa using hbe
                simp only [Option.some.injEq, Prod.mk.injEq] at h
                obtain ⟨rfl, rfl⟩ := h
                refine ⟨inv_push s hInv none parent hd e hlk hh,
                  ⟨htrav, trivial⟩, ?_, fun _ => rfl, fun hs => by simp [hpe] at hs⟩
                intro pr hpr
                have hpr2 : pr = (popToParent parent s.traversal,
                    popToParent parent s.traversal ++ [e]) := by
                  simpa [structuralPaths] using hpr
                rw [hpr2]
                exact hnod

/-- Running any engine-call sequence preserves the invariant, threads the
chain condition from the starting traversal stack, and emits only
duplicate-free contexts; once an error is latched nothing structural is
emitted any more. -/
theorem run_inv :
    ∀ (calls : List EngineCall) (s : ParseTraverser), Inv s →
      ∀ (s2 : ParseTraverser) (evs : List SinkEvent), run s calls = some (s2, evs) →
      Inv s2
      ∧ chainFrom s.traversal (structuralPaths evs)
      ∧ (∀ pr ∈ structuralPaths evs, (pr.1.map HtmlPathElement.handle).Nodup)
      ∧ (s2.parseError = none → endPath s.traversal (structuralPaths evs) = s2.traversal)
      ∧ (s.parseError.isSome = true →
          s2.parseError.isSome = true ∧ structuralPaths evs = []) := by
  intro calls
  induction calls with
  | nil =>
    intro s hInv s2 evs h
    rw [run] at h
    obtain ⟨rfl, rfl⟩ : s = s2 ∧ [] = evs := by simpa using h
    exact ⟨hInv, trivial, by simp [structuralPaths], fun _ => rfl, fun hs => ⟨hs, rfl⟩⟩
  | cons c cs ih =>
    intro s hInv s2 evs h
    rw [run] at h
    cases hstep : step s c with
    | none => rw [hstep] at h; cases h
    | some pr1 =>
      obtain ⟨sm, evs1⟩ := pr1
      rw [hstep] at h
      dsimp only at h
      cases hrun : run sm cs with
      | none => rw [hrun] at h; cases h
      | some pr2 =>
        obtain ⟨sf, evs2⟩ := pr2
        rw [hrun] at h
        obtain ⟨rfl, rfl⟩ : sf = s2 ∧ evs1 ++ evs2 = evs := by simpa using h
        have H1 := step_inv s c sm evs1 hInv hstep
        have H2 := ih sm H1.1 sf evs2 hrun
        have hsp : structuralPaths (evs1 ++ evs2)
            = structuralPaths evs1 ++ structuralPaths evs2 := by
          simp [structuralPaths]
        refine ⟨H2.1, ?_, ?_, ?_, ?_⟩
        · rw [hsp]
          refine (chainFrom_append _ _ _).mpr ⟨H1.2.1, ?_⟩
          cases hpe : sm.parseError with
          | none =>
            rw [H1.2.2.2.1 hpe]
            exact H2.2.1
          | some m =>
            have hl := H2.2.2.2.2 (by simp [hpe])
            rw [hl.2]
            exact trivial
        · rw [hsp]
          intro pr hpr
          rcases List.mem_append.mp hpr with h1 | h2
          · exact H1.2.2.1 pr h1
          · exact H2.2.2.1 pr h2
        · intro hnone
          rw [hsp, endPath_append]
          have hsm : sm.parseError = none := by
            cases hpe : sm.parseError with
            | none => rfl
            | some m =>
              have hx := (H2.2.2.2.2 (by simp [hpe])).1
              rw [hnone] at hx
              cases hx
          rw [H1.2.2.2.1 hsm]
          exact H2.2.2.2.1 hnone
        · intro hs
          have A := H1.2.2.2.2 hs
          have B := H2.2.2.2.2 A.1
          refine ⟨B.1, ?_⟩
          rw [hsp, A.2, B.2]
          rfl

/-- C5: for every engine-call sequence driving a freshly initialised
adapter without panicking, every emitted context carries pairwise
distinct handles, and for every pair of consecutive context-carrying
events the later event's context is a prefix-extension or a prefix of the
earlier event's open path — never an unrelated sequence. -/
theorem c5_context_monotonic (s0 sf : ParseTraverser) (calls : List EngineCall)
    (events : List SinkEvent)
    (h0 : s0 = ParseTraverser.new_document ∨ s0 = ParseTraverser.new_fragment)
    (h : run s0 calls = some (sf, events)) :
    pairwiseConsecutiveB (structuralPaths events) = true
  ∧ ∀ pr ∈ structuralPaths events, (pr.1.map HtmlPathElement.handle).Nodup := by
  have hInv : Inv s0 := by
    rcases h0 with rfl | rfl
    · exact inv_new_document
    · exact inv_new_fragment
  have H := run_inv calls s0 hInv sf events h
  exact ⟨chainFrom_pairwise _ _ H.2.1, H.2.2.1⟩

/-- C5 witness: the concrete trace `c5calls` emits `c5events`, whose
structural paths satisfy the pairwise prefix condition with duplicate-free
contexts. -/
theorem c5_witness :
    pairwiseConsecutiveB (structuralPaths c5events) = true
  ∧ ∀ pr ∈ structuralPaths c5events, (pr.1.map HtmlPathElement.handle).Nodup :=
  c5_context_monotonic ParseTraverser.new_document ⟨none, 1, [⟨1, "a", []⟩], []⟩
    c5calls c5events (Or.inl rfl) (by decide)

end Streams
